import Mathlib

/-! Shallow embedding of the port, address and interface validation helpers of
firewalld's `src/firewall/functions.py`. Python strings are Lean `String`s and
character-level work happens on `String.data`. The external collaborators (the
system service database `socket.getservbyname` and the address checkers built
on `socket.inet_pton`) are modelled as function parameters, as the spec treats
them: failures there are "name unknown", never fatal. -/

/-- Embedding of Python `str.strip()`: drop leading and trailing whitespace. -/
def pyStripChars (l : List Char) : List Char :=
  ((l.dropWhile Char.isWhitespace).reverse.dropWhile Char.isWhitespace).reverse

/-- Decimal digit test used by the embedding of Python `int(...)`. -/
def isDigitChar (c : Char) : Bool := 48 ≤ c.toNat && c.toNat ≤ 57

/-- Numeric value of a most-significant-first decimal digit string. -/
def digitsToNat (l : List Char) : Nat :=
  l.foldl (fun a c => a * 10 + (c.toNat - 48)) 0

/-- Embedding of Python `int(str)` on an already stripped character list: an
optional sign followed by a nonempty run of decimal digits. `none` models a
raised `ValueError`. -/
def pyIntCore : List Char → Option Int
  | [] => none
  | c :: rest =>
    if c = '-' then
      if rest ≠ [] ∧ rest.all isDigitChar then some (-(digitsToNat rest : Int))
      else none
    else if c = '+' then
      if rest ≠ [] ∧ rest.all isDigitChar then some ((digitsToNat rest : Int))
      else none
    else
      if (c :: rest).all isDigitChar then some ((digitsToNat (c :: rest) : Int))
      else none

/-- Python `int(str)` on a string (Python `int` strips surrounding whitespace
itself). -/
def pyInt (s : String) : Option Int := pyIntCore (pyStripChars s.data)

/-- Embedding of Python `str.split(sep)` for a one-character separator. -/
def splitChar (sep : Char) : List Char → List (List Char)
  | [] => [[]]
  | c :: rest =>
    if c = sep then [] :: splitChar sep rest
    else
      match splitChar sep rest with
      | [] => [[c]]
      | h :: t => (c :: h) :: t

/-- Embedding of Python `sep.join(parts)` for a one-character separator. -/
def joinChar (sep : Char) (l : List (List Char)) : List Char :=
  List.intercalate [sep] l

/-- Decimal digits of a natural number, fuelled so the definition stays
structurally recursive (the fuel `n + 1` always suffices). -/
def natToDigitsFuel : Nat → Nat → List Char
  | 0, _ => []
  | fuel + 1, n =>
    if n < 10 then [Nat.digitChar n]
    else natToDigitsFuel fuel (n / 10) ++ [Nat.digitChar (n % 10)]

/-- Canonical decimal digit string of a natural number, as Python `str(int)`
renders nonnegative integers. -/
def natToDigits (n : Nat) : List Char := natToDigitsFuel (n + 1) n

/-- Embedding of Python `str(int)`. -/
def intToStr (i : Int) : String :=
  if i < 0 then ⟨'-' :: natToDigits i.natAbs⟩ else ⟨natToDigits i.toNat⟩

/-- The system service database (`socket.getservbyname`): a service name may
resolve to a port number; `none` models the lookup exception. -/
abbrev Svc := String → Option Nat

/-- A Python argument that is either an `int` or a `str`, as the duck-typed
port helpers accept. -/
inductive PortInput where
  | int (i : Int)
  | str (s : String)
deriving DecidableEq

/-- Embedding of `getPortID`: check and get a port id from a port string or
port id. Returns the id if valid, `-1` if the port can not be found and `-2`
if the port is too big. -/
def getPortID (svc : Svc) (port : PortInput) : Int :=
  match port with
  | .int i => if 65535 < i then -2 else i
  | .str s =>
    match pyIntCore (pyStripChars s.data) with
    | some i => if 65535 < i then -2 else i
    | none =>
      match svc ⟨pyStripChars s.data⟩ with
      | some n => if 65535 < (n : Int) then -2 else (n : Int)
      | none => -1

/-- One entry of the `matched` list built by `getPortRange`: a single port id
or an ordered pair of port ids. -/
inductive PREntry where
  | single (a : Int)
  | pair (a b : Int)
deriving DecidableEq

/-- Result of `getPortRange`: a negative error code (`err`), the ambiguous
result Python `None` (`amb`), a one-element tuple or a two-element tuple. -/
inductive PortRangeResult where
  | err (code : Int)
  | amb
  | one (a : Int)
  | two (a b : Int)
deriving DecidableEq

/-- View of a matched entry as a `getPortRange` result. -/
def PREntry.toResult : PREntry → PortRangeResult
  | .single a => .one a
  | .pair a b => .two a b

/-- The split-scanning loop of `getPortRange`: Python's
`for i in range(len(splits), 0, -1)` body, collecting `matched` entries; the
`break` on a full match (`i == len(splits)`) ends the scan immediately. -/
def loopMatches (svc : Svc) (splits : List (List Char)) (n : Nat) :
    Nat → List PREntry
  | 0 => []
  | i + 1 =>
    let id1 := getPortID svc (.str ⟨joinChar '-' (splits.take (i + 1))⟩)
    let port2 := joinChar '-' (splits.drop (i + 1))
    if 0 < port2.length then
      let id2 := getPortID svc (.str ⟨port2⟩)
      if 0 ≤ id1 ∧ 0 ≤ id2 then
        (if id1 < id2 then PREntry.pair id1 id2
         else if id2 < id1 then PREntry.pair id2 id1
         else PREntry.single id1) :: loopMatches svc splits n i
      else loopMatches svc splits n i
    else
      if 0 ≤ id1 then
        if i + 1 = n then [PREntry.single id1]
        else PREntry.single id1 :: loopMatches svc splits n i
      else loopMatches svc splits n i

/-- Embedding of `getPortRange`: port range for a port range string or a
single port id. -/
def getPortRange (svc : Svc) (ports : PortInput) : PortRangeResult :=
  match ports with
  | .int i =>
    let id := getPortID svc (.int i)
    if 0 ≤ id then .one id else .err id
  | .str s =>
    let splits := splitChar '-' s.data
    match loopMatches svc splits splits.length splits.length with
    | [] => .err (-1)
    | [e] => e.toResult
    | _ => .amb

/-- Result of `portStr`: a returned string, a returned Python `None`, or a
raised `TypeError` (from `len(None)` / `len(int)`). -/
inductive PyStrResult where
  | ok (s : String)
  | pyNone
  | typeError
deriving DecidableEq

/-- Embedding of `portStr`: create a port or port range string. -/
def portStr (svc : Svc) (port : PortInput) (delimiter : String) : PyStrResult :=
  if port = .str "" then .ok ""
  else
    match getPortRange svc port with
    | .err k => if k < 0 then .pyNone else .typeError
    | .amb => .typeError
    | .one a => .ok (intToStr a)
    | .two a b => .ok (intToStr a ++ delimiter ++ intToStr b)

/-- Embedding of `check_port`; `none` models the `TypeError` raised by
`len(range)` when `getPortRange` returned a bare negative int other than
`-1`/`-2` (possible only for negative `int` inputs). -/
def check_port (svc : Svc) (port : PortInput) : Option Bool :=
  match getPortRange svc port with
  | .err k => if k = -2 ∨ k = -1 then some false else none
  | .amb => some false
  | .one _ => some true
  | .two a b => if b ≤ a then some false else some true

/-- The address/mask split both `checkIPnMask` and `checkIP6nMask` perform:
everything before the first `/` is the address, everything after it the mask
(`none` when there is no `/`). -/
def firstSlashSplit (ip : String) : String × Option String :=
  match splitChar '/' ip.data with
  | [] => (ip, none)
  | [a] => (⟨a⟩, none)
  | a :: rest => (⟨a⟩, some ⟨joinChar '/' rest⟩)

/-- Embedding of `checkIPnMask`, parameterized by the IPv4 address checker
`chk` (the source's `checkIP`, a thin wrapper over `socket.inet_pton`). -/
def checkIPnMask (chk : String → Bool) (ip : String) : Bool :=
  match firstSlashSplit ip with
  | (addr, maskOpt) =>
    if chk addr then
      match maskOpt with
      | none => true
      | some mask =>
        if mask = "" then true
        else if mask.data.contains '.' && chk addr then false
        else
          match pyInt mask with
          | none => false
          | some i => if i < 0 ∨ 32 < i then false else true
    else false

/-- Embedding of `checkIP6nMask`, parameterized by the IPv6 address checker
`chk6` (the source's `checkIP6`, a thin wrapper over `socket.inet_pton`). -/
def checkIP6nMask (chk6 : String → Bool) (ip : String) : Bool :=
  match firstSlashSplit ip with
  | (addr, maskOpt) =>
    if chk6 addr then
      match maskOpt with
      | none => true
      | some mask =>
        if mask = "" then true
        else
          match pyInt mask with
          | none => false
          | some i => if i < 0 ∨ 128 < i then false else true
    else false

/-- Embedding of `checkInterface`: an interface name is valid when nonempty,
at most 16 characters, and free of space, slash, bang and star. -/
def checkInterface (iface : String) : Bool :=
  if iface = "" ∨ 16 < iface.length then false
  else if [' ', '/', '!', '*'].any (fun ch => iface.data.contains ch) then false
  else true

/-- Embedding of `max_zone_name_len`. `SHORTCUTS` lives in
`firewall.core.base`, which is not part of the provided source, so the
function is parameterized by the list of shortcut values; `none` models the
`max()` exception on an empty collection. Modelled from the spec and the
source docstring: the longest chain created is `FWDI_<zone>_allow`, leaving
`28 - 11 = 17` characters for the zone name. -/
def max_zone_name_len (shortcuts : List String) : Option Int :=
  match (shortcuts.map String.length).max? with
  | none => none
  | some longest => some (28 - ((longest : Int) + ("__allow".length : Int)))

/-- A service database on which the whole string "1-2" resolves as a service
name while "1" and "2" also parse as port ids. -/
def svcC1 : Svc := fun s => if s = "1-2" then some 99 else none

/-- A service database making "1-2-3" ambiguous: both the split "1-2" / "3"
and the split "1" / "2-3" succeed, and the whole string does not resolve. -/
def svcC2 : Svc := fun s =>
  if s = "1-2" then some 5 else if s = "2-3" then some 7 else none

/-- The empty service database: no name resolves. -/
def svcNone : Svc := fun _ => none

/-- A small concrete service database for the `getPortID` witness. -/
def svcW : Svc := fun s =>
  if s = "http" then some 80 else if s = "big" then some 70000 else none

/-- A concrete IPv4 checker accepting exactly "192.168.1.0". -/
def ip4ex : String → Bool := fun s => s == "192.168.1.0"

/-- A concrete IPv6 checker accepting exactly "::1". -/
def ip6ex : String → Bool := fun s => s == "::1"

theorem string_data_mk (l : List Char) : (String.mk l).data = l := rfl

theorem string_data_append (x y : String) : (x ++ y).data = x.data ++ y.data := rfl

theorem isDigitChar_not_ws {c : Char} (h : isDigitChar c = true) :
    c.isWhitespace = false := by
  cases hw : c.isWhitespace with
  | false => rfl
  | true =>
    exfalso
    have hp : c = ' ' ∨ c = '\t' ∨ c = '\r' ∨ c = '\n' := by
      simpa [Char.isWhitespace, or_assoc] using hw
    rcases hp with h1 | h1 | h1 | h1 <;> subst h1 <;> exact absurd h (by decide)

theorem isDigitChar_ne {c : Char} (h : isDigitChar c = true) :
    c ≠ '-' ∧ c ≠ '+' ∧ c ≠ '.' ∧ c ≠ '/' := by
  refine ⟨?_, ?_, ?_, ?_⟩ <;> rintro rfl <;> exact absurd h (by decide)

theorem dropWhile_eq_self_of_head {p : Char → Bool} {l : List Char}
    (h : ∀ c ∈ l, p c = false) : l.dropWhile p = l := by
  cases l with
  | nil => rfl
  | cons a t => simp [List.dropWhile, h a (List.mem_cons_self a t)]

theorem pyStripChars_eq_self {l : List Char}
    (h : ∀ c ∈ l, c.isWhitespace = false) : pyStripChars l = l := by
  unfold pyStripChars
  rw [dropWhile_eq_self_of_head h]
  rw [dropWhile_eq_self_of_head (fun c hc => h c (List.mem_reverse.mp hc))]
  exact List.reverse_reverse l

theorem splitChar_ne_nil (sep : Char) (l : List Char) : splitChar sep l ≠ [] := by
  cases l with
  | nil => simp [splitChar]
  | cons c rest =>
    simp only [splitChar]
    by_cases hc : c = sep
    · simp [hc]
    · simp only [if_neg hc]
      cases splitChar sep rest <;> simp

theorem splitChar_no_sep {sep : Char} {l : List Char} (h : sep ∉ l) :
    splitChar sep l = [l] := by
  induction l with
  | nil => rfl
  | cons c rest ih =>
    have hc : ¬ c = sep := by
      intro e; exact h (by rw [e]; exact List.mem_cons_self sep rest)
    have hr : sep ∉ rest := fun e => h (List.mem_cons_of_mem c e)
    simp only [splitChar, if_neg hc, ih hr]

theorem splitChar_append {sep : Char} {x y : List Char} (hx : sep ∉ x) :
    splitChar sep (x ++ sep :: y) = x :: splitChar sep y := by
  induction x with
  | nil => simp [splitChar]
  | cons c xt ih =>
    have hc : ¬ c = sep := by
      intro e; exact hx (by rw [e]; exact List.mem_cons_self sep xt)
    have hxt : sep ∉ xt := fun e => hx (List.mem_cons_of_mem c e)
    simp only [List.cons_append, splitChar, if_neg hc, List.append_eq, ih hxt]

theorem intercalate_single (sep : List Char) (x : List Char) :
    List.intercalate sep [x] = x := by
  simp [List.intercalate]

theorem intercalate_cons_two (sep x h : List Char) (t : List (List Char)) :
    List.intercalate sep (x :: h :: t) =
      x ++ sep ++ List.intercalate sep (h :: t) := by
  simp [List.intercalate, List.intersperse]

theorem intercalate_cons_head (sep : Char) (c : Char) (h : List Char)
    (t : List (List Char)) :
    List.intercalate [sep] ((c :: h) :: t) =
      c :: List.intercalate [sep] (h :: t) := by
  cases t with
  | nil => simp [intercalate_single]
  | cons t1 ts => simp [intercalate_cons_two]

theorem joinChar_splitChar (sep : Char) (l : List Char) :
    joinChar sep (splitChar sep l) = l := by
  induction l with
  | nil => simp [joinChar, splitChar, intercalate_single]
  | cons c rest ih =>
    obtain ⟨h, t, he⟩ : ∃ h t, splitChar sep rest = h :: t := by
      cases hq : splitChar sep rest with
      | nil => exact absurd hq (splitChar_ne_nil _ _)
      | cons a t => exact ⟨a, t, rfl⟩
    simp only [joinChar, he] at ih
    by_cases hc : c = sep
    · subst hc
      have hs : splitChar c (c :: rest) = [] :: h :: t := by
        simp [splitChar, he]
      simp only [joinChar, hs, intercalate_cons_two, ih]
      simp
    · have hs : splitChar sep (c :: rest) = (c :: h) :: t := by
        simp only [splitChar, if_neg hc, he]
      simp only [joinChar, hs, intercalate_cons_head, ih]

theorem digitChar_isDigit {n : Nat} (h : n < 10) :
    isDigitChar (Nat.digitChar n) = true := by
  interval_cases n <;> decide

theorem digitChar_toNat {n : Nat} (h : n < 10) :
    (Nat.digitChar n).toNat = n + 48 := by
  interval_cases n <;> decide

theorem natToDigitsFuel_digits :
    ∀ fuel n, n < fuel → ∀ c ∈ natToDigitsFuel fuel n, isDigitChar c = true := by
  intro fuel
  induction fuel with
  | zero => intro n h; omega
  | succ f ih =>
    intro n h c hc
    by_cases h10 : n < 10
    · simp only [natToDigitsFuel, if_pos h10, List.mem_singleton] at hc
      subst hc; exact digitChar_isDigit h10
    · simp only [natToDigitsFuel, if_neg h10, List.mem_append,
        List.mem_singleton] at hc
      rcases hc with hc | hc
      · exact ih (n / 10) (by omega) c hc
      · subst hc; exact digitChar_isDigit (Nat.mod_lt _ (by omega))

theorem natToDigitsFuel_ne_nil :
    ∀ fuel n, n < fuel → natToDigitsFuel fuel n ≠ [] := by
  intro fuel n h
  cases fuel with
  | zero => omega
  | succ f =>
    by_cases h10 : n < 10 <;> simp [natToDigitsFuel, h10]

theorem digitsToNat_append_one (l : List Char) (c : Char) :
    digitsToNat (l ++ [c]) = digitsToNat l * 10 + (c.toNat - 48) := by
  simp [digitsToNat, List.foldl_append]

theorem digitsToNat_natToDigitsFuel :
    ∀ fuel n, n < fuel → digitsToNat (natToDigitsFuel fuel n) = n := by
  intro fuel
  induction fuel with
  | zero => intro n h; omega
  | succ f ih =>
    intro n h
    by_cases h10 : n < 10
    · simp only [natToDigitsFuel, if_pos h10]
      simp only [digitsToNat, List.foldl_cons, List.foldl_nil]
      rw [digitChar_toNat h10]; omega
    · simp only [natToDigitsFuel, if_neg h10]
      rw [digitsToNat_append_one, ih (n / 10) (by omega),
        digitChar_toNat (Nat.mod_lt _ (by omega))]
      omega

theorem natToDigits_digits (n : Nat) :
    ∀ c ∈ natToDigits n, isDigitChar c = true :=
  natToDigitsFuel_digits (n + 1) n (Nat.lt_succ_self n)

theorem natToDigits_ne_nil (n : Nat) : natToDigits n ≠ [] :=
  natToDigitsFuel_ne_nil (n + 1) n (Nat.lt_succ_self n)

theorem digitsToNat_natToDigits (n : Nat) : digitsToNat (natToDigits n) = n :=
  digitsToNat_natToDigitsFuel (n + 1) n (Nat.lt_succ_self n)

theorem pyIntCore_digits {l : List Char} (h1 : l ≠ [])
    (h2 : ∀ c ∈ l, isDigitChar c = true) :
    pyIntCore l = some ((digitsToNat l : Nat) : Int) := by
  cases l with
  | nil => exact absurd rfl h1
  | cons c rest =>
    have hd := h2 c (List.mem_cons_self c rest)
    have hne := isDigitChar_ne hd
    have hall : (c :: rest).all isDigitChar = true := by
      rw [List.all_eq_true]; exact h2
    simp only [pyIntCore]
    rw [if_neg hne.1, if_neg hne.2.1, if_pos hall]

theorem pyIntCore_strip_natToDigits (n : Nat) :
    pyIntCore (pyStripChars (natToDigits n)) = some ((n : Nat) : Int) := by
  rw [pyStripChars_eq_self
    (fun c hc => isDigitChar_not_ws (natToDigits_digits n c hc))]
  rw [pyIntCore_digits (natToDigits_ne_nil n) (natToDigits_digits n),
    digitsToNat_natToDigits]

theorem getPortID_str_eq (svc : Svc) (s : String) :
    getPortID svc (.str s) =
      (match pyIntCore (pyStripChars s.data) with
       | some i => if 65535 < i then -2 else i
       | none =>
         match svc ⟨pyStripChars s.data⟩ with
         | some n => if 65535 < (n : Int) then -2 else (n : Int)
         | none => -1) := rfl

theorem getPortID_natToDigits (svc : Svc) {n : Nat} (h : n ≤ 65535) :
    getPortID svc (.str ⟨natToDigits n⟩) = (n : Int) := by
  rw [getPortID_str_eq, string_data_mk, pyIntCore_strip_natToDigits]
  show (if 65535 < ((n : Nat) : Int) then (-2 : Int) else ((n : Nat) : Int)) =
    ((n : Nat) : Int)
  rw [if_neg (by omega)]

theorem pyIntCore_digits_dash {A B : List Char} (hA : A ≠ [])
    (hAd : ∀ c ∈ A, isDigitChar c = true) :
    pyIntCore (A ++ '-' :: B) = none := by
  cases A with
  | nil => exact absurd rfl hA
  | cons c rest =>
    have hd := hAd c (List.mem_cons_self c rest)
    have hne := isDigitChar_ne hd
    rw [List.cons_append]
    have hall : ¬ (c :: (rest ++ '-' :: B)).all isDigitChar = true := by
      intro hq
      have := (List.all_eq_true.mp hq) '-' (by simp)
      exact absurd this (by decide)
    simp only [pyIntCore]
    rw [if_neg hne.1, if_neg hne.2.1, if_neg hall]

theorem pyStrip_digits_dash {A B : List Char}
    (hAd : ∀ c ∈ A, isDigitChar c = true)
    (hBd : ∀ c ∈ B, isDigitChar c = true) :
    pyStripChars (A ++ '-' :: B) = A ++ '-' :: B := by
  apply pyStripChars_eq_self
  intro c hc
  rcases List.mem_append.mp hc with h1 | h1
  · exact isDigitChar_not_ws (hAd c h1)
  · rcases List.mem_cons.mp h1 with h2 | h2
    · subst h2; decide
    · exact isDigitChar_not_ws (hBd c h2)

/-- C9: for every negative integer `p`, `getPortID` returns `p` unchanged:
integer inputs are only checked against the 65535 upper bound, never against
a lower bound of 0, so the integer input `-1` is indistinguishable from the
"not found" rejection code and `-2` from the "too big" rejection code. -/
theorem claimC9 (svc : Svc) (p : Int) (h : p < 0) :
    getPortID svc (.int p) = p := by
  simp only [getPortID]
  rw [if_neg (by omega)]

/-- Witness for C9: the integer input `-7` comes back unchanged. -/
theorem claimC9_witness : getPortID svcNone (.int (-7)) = -7 :=
  claimC9 svcNone (-7) (by decide)

/-- C10: `max_zone_name_len` returns `28` minus the sum of the longest
shortcut length and the 7-character suffix `__allow`; when the longest
`SHORTCUTS` entry has length 4 (such as "FWDI") it returns 17, the zone-name
limit the spec derives from the 28-character netfilter chain-name limit. -/
theorem claimC10 (shortcuts : List String)
    (h : (shortcuts.map String.length).max? = some 4) :
    max_zone_name_len shortcuts = some 17 := by
  unfold max_zone_name_len
  rw [h]
  decide

/-- Witness for C10 at the firewalld shortcut values. -/
theorem claimC10_witness :
    max_zone_name_len ["PRE", "POST", "IN", "FWDI", "FWDO", "OUT"] = some 17 :=
  claimC10 ["PRE", "POST", "IN", "FWDI", "FWDO", "OUT"] (by decide)

/-- C4: `getPortID` returns the distinct rejection code `-1` when the token is
neither an integer nor a name the service database resolves, `-2` when the
numeric value (parsed or resolved) exceeds 65535, and otherwise the resolved
numeric port id. -/
theorem claimC4 (svc : Svc) (s : String) :
    (pyIntCore (pyStripChars s.data) = none →
      svc ⟨pyStripChars s.data⟩ = none → getPortID svc (.str s) = -1) ∧
    (∀ i : Int, pyIntCore (pyStripChars s.data) = some i → i ≤ 65535 →
      getPortID svc (.str s) = i) ∧
    (∀ i : Int, pyIntCore (pyStripChars s.data) = some i → 65535 < i →
      getPortID svc (.str s) = -2) ∧
    (∀ p : Nat, pyIntCore (pyStripChars s.data) = none →
      svc ⟨pyStripChars s.data⟩ = some p → p ≤ 65535 →
      getPortID svc (.str s) = (p : Int)) ∧
    (∀ p : Nat, pyIntCore (pyStripChars s.data) = none →
      svc ⟨pyStripChars s.data⟩ = some p → 65535 < p →
      getPortID svc (.str s) = -2) := by
  refine ⟨?_, ?_, ?_, ?_, ?_⟩
  · intro h1 h2
    simp only [getPortID_str_eq, h1, h2]
  · intro i h1 h2
    simp only [getPortID_str_eq, h1]
    rw [if_neg (by omega)]
  · intro i h1 h2
    simp only [getPortID_str_eq, h1]
    rw [if_pos h2]
  · intro p h1 h2 h3
    simp only [getPortID_str_eq, h1, h2]
    rw [if_neg (by omega)]
  · intro p h1 h2 h3
    simp only [getPortID_str_eq, h1, h2]
    rw [if_pos (by omega)]

/-- Witness for C4 on concrete inputs hitting all five cases. -/
theorem claimC4_witness :
    getPortID svcW (.str "80") = 80 ∧ getPortID svcW (.str "foo") = -1 ∧
    getPortID svcW (.str "70000") = -2 ∧ getPortID svcW (.str "http") = 80 ∧
    getPortID svcW (.str "big") = -2 :=
  ⟨(claimC4 svcW "80").2.1 80 (by decide) (by decide),
   (claimC4 svcW "foo").1 (by decide) (by decide),
   (claimC4 svcW "70000").2.2.1 70000 (by decide) (by decide),
   (claimC4 svcW "http").2.2.2.1 80 (by decide) (by decide) (by decide),
   (claimC4 svcW "big").2.2.2.2 70000 (by decide) (by decide) (by decide)⟩

/-- C5: for every `0 ≤ p ≤ 65535`, `portStr` renders the integer `p` as its
canonical decimal string, and `getPortID` parses that string back to `p`
(round-trip identity). -/
theorem claimC5 (svc : Svc) (p : Int) (h0 : 0 ≤ p) (h1 : p ≤ 65535) :
    portStr svc (.int p) ":" = .ok (intToStr p) ∧
    getPortID svc (.str (intToStr p)) = p := by
  have hne : (PortInput.int p) ≠ .str "" := by intro h; cases h
  have hid : getPortID svc (.int p) = p := by
    simp only [getPortID]; rw [if_neg (by omega)]
  have hrange : getPortRange svc (.int p) = .one p := by
    simp only [getPortRange, hid]
    rw [if_pos h0]
  constructor
  · rw [portStr, if_neg hne, hrange]
  · have hts : intToStr p = ⟨natToDigits p.toNat⟩ := by
      rw [intToStr, if_neg (by omega)]
    rw [hts, getPortID_natToDigits svc (by omega)]
    exact Int.toNat_of_nonneg h0

/-- Witness for C5 at `p = 3`. -/
theorem claimC5_witness :
    portStr svcNone (.int 3) ":" = .ok (intToStr 3) ∧
    getPortID svcNone (.str (intToStr 3)) = 3 :=
  claimC5 svcNone 3 (by decide) (by decide)

theorem getPortRange_err_neg {svc : Svc} {port : PortInput} {k : Int}
    (h : getPortRange svc port = .err k) : k < 0 := by
  cases port with
  | int i =>
    simp only [getPortRange] at h
    by_cases hp : 0 ≤ getPortID svc (.int i)
    · rw [if_pos hp] at h
      exact absurd h (by simp)
    · rw [if_neg hp] at h
      have hk : getPortID svc (.int i) = k := by
        simpa using h
      omega
  | str s =>
    simp only [getPortRange] at h
    rcases hm : loopMatches svc (splitChar '-' s.data)
        (splitChar '-' s.data).length (splitChar '-' s.data).length with
      _ | ⟨e, _ | ⟨e2, t2⟩⟩
    · rw [hm] at h
      simp at h
      omega
    · rw [hm] at h
      cases e <;> simp [PREntry.toResult] at h
    · rw [hm] at h
      simp at h

theorem loopMatches_pair_lt (svc : Svc) (splits : List (List Char)) (n : Nat) :
    ∀ i x y, PREntry.pair x y ∈ loopMatches svc splits n i → x < y := by
  intro i
  induction i with
  | zero => intro x y hm; simp [loopMatches] at hm
  | succ i ih =>
    intro x y hm
    simp only [loopMatches] at hm
    by_cases hlen : 0 < (joinChar '-' (splits.drop (i + 1))).length
    · rw [if_pos hlen] at hm
      set id1 := getPortID svc (.str ⟨joinChar '-' (splits.take (i + 1))⟩)
        with hid1
      set id2 := getPortID svc (.str ⟨joinChar '-' (splits.drop (i + 1))⟩)
        with hid2
      by_cases hpos : 0 ≤ id1 ∧ 0 ≤ id2
      · rw [if_pos hpos] at hm
        rcases List.mem_cons.mp hm with he | he
        · by_cases h12 : id1 < id2
          · rw [if_pos h12] at he
            injection he with e1 e2
            omega
          · rw [if_neg h12] at he
            by_cases h21 : id2 < id1
            · rw [if_pos h21] at he
              injection he with e1 e2
              omega
            · rw [if_neg h21] at he
              exact PREntry.noConfusion he
        · exact ih x y he
      · rw [if_neg hpos] at hm
        exact ih x y hm
    · rw [if_neg hlen] at hm
      by_cases hpos : 0 ≤ getPortID svc (.str ⟨joinChar '-' (splits.take (i + 1))⟩)
      · rw [if_pos hpos] at hm
        by_cases hn : i + 1 = n
        · rw [if_pos hn] at hm
          rcases List.mem_cons.mp hm with he | he
          · exact PREntry.noConfusion he
          · simp at he
        · rw [if_neg hn] at hm
          rcases List.mem_cons.mp hm with he | he
          · exact PREntry.noConfusion he
          · exact ih x y he
      · rw [if_neg hpos] at hm
        exact ih x y hm

theorem getPortRange_two_lt {svc : Svc} {port : PortInput} {a b : Int}
    (h : getPortRange svc port = .two a b) : a < b := by
  cases port with
  | int i =>
    simp only [getPortRange] at h
    by_cases hp : 0 ≤ getPortID svc (.int i)
    · rw [if_pos hp] at h
      exact absurd h (by simp)
    · rw [if_neg hp] at h
      exact absurd h (by simp)
  | str s =>
    simp only [getPortRange] at h
    rcases hm : loopMatches svc (splitChar '-' s.data)
        (splitChar '-' s.data).length (splitChar '-' s.data).length with
      _ | ⟨e, _ | ⟨e2, t2⟩⟩
    · rw [hm] at h
      simp at h
    · rw [hm] at h
      cases e with
      | single a1 => simp [PREntry.toResult] at h
      | pair a1 b1 =>
        have he : a1 = a ∧ b1 = b := by
          simpa [PREntry.toResult] using h
        have hl := loopMatches_pair_lt svc (splitChar '-' s.data)
          (splitChar '-' s.data).length (splitChar '-' s.data).length a1 b1
          (by rw [hm]; exact List.mem_cons_self _ _)
        omega
    · rw [hm] at h
      simp at h

/-- C8: whenever `getPortRange` returns a two-element pair `(x, y)`, `x < y`
holds (the lower id always comes first); consequently the branch of
`check_port` rejecting a two-element range with start >= end is unreachable,
and `check_port` accepts every such range. -/
theorem claimC8 (svc : Svc) (port : PortInput) (a b : Int)
    (h : getPortRange svc port = .two a b) :
    a < b ∧ check_port svc port = some true := by
  have hlt : a < b := getPortRange_two_lt h
  refine ⟨hlt, ?_⟩
  simp only [check_port, h]
  rw [if_neg (by omega)]

/-- Witness for C8 at the range string "1-2" over the empty database. -/
theorem claimC8_witness :
    (1 : Int) < 2 ∧ check_port svcNone (.str "1-2") = some true :=
  claimC8 svcNone (.str "1-2") 1 2 (by decide)

theorem loopMatches_length_succ (svc : Svc) (splits : List (List Char))
    (n i : Nat) :
    (loopMatches svc splits n (i + 1)).length ≤
      (loopMatches svc splits n i).length + 1 := by
  simp only [loopMatches]
  by_cases hlen : 0 < (joinChar '-' (splits.drop (i + 1))).length
  · rw [if_pos hlen]
    by_cases hpos : 0 ≤ getPortID svc (.str ⟨joinChar '-' (splits.take (i + 1))⟩) ∧
        0 ≤ getPortID svc (.str ⟨joinChar '-' (splits.drop (i + 1))⟩)
    · rw [if_pos hpos]
      simp
    · rw [if_neg hpos]
      omega
  · rw [if_neg hlen]
    by_cases hpos : 0 ≤ getPortID svc (.str ⟨joinChar '-' (splits.take (i + 1))⟩)
    · rw [if_pos hpos]
      by_cases hn : i + 1 = n
      · rw [if_pos hn]
        simp
      · rw [if_neg hn]
        simp
    · rw [if_neg hpos]
      omega

theorem getPortRange_str_not_amb_of_single (svc : Svc) (s : String)
    (hs : (splitChar '-' s.data).length = 1) :
    getPortRange svc (.str s) ≠ .amb := by
  intro h
  simp only [getPortRange] at h
  rw [hs] at h
  have hz : loopMatches svc (splitChar '-' s.data) 1 0 = [] := rfl
  have hlen : (loopMatches svc (splitChar '-' s.data) 1 1).length ≤ 1 := by
    have hstep := loopMatches_length_succ svc (splitChar '-' s.data) 1 0
    rw [hz] at hstep
    simpa using hstep
  rcases hm : loopMatches svc (splitChar '-' s.data) 1 1 with _ | ⟨e, _ | ⟨e2, t2⟩⟩
  · rw [hm] at h
    simp at h
  · rw [hm] at h
    cases e <;> simp [PREntry.toResult] at h
  · rw [hm] at hlen
    simp at hlen

/-- C2: on every input where `getPortRange` reports ambiguity (Python `None`),
`portStr` does not return a value at all: it applies `len` to `None` and
raises a `TypeError`, unlike inputs on which `getPortRange` yields a negative
code, for which `portStr` returns `None` (the empty string short-circuits
before `getPortRange` is consulted). The ambiguous branch is reachable: see
the witness. -/
theorem claimC2 (svc : Svc) (port : PortInput) (delim : String) :
    (getPortRange svc port = .amb → portStr svc port delim = .typeError) ∧
    (∀ k : Int, port ≠ .str "" → getPortRange svc port = .err k →
      portStr svc port delim = .pyNone) := by
  constructor
  · intro h
    by_cases he : port = .str ""
    · subst he
      exact absurd h (getPortRange_str_not_amb_of_single svc "" (by decide))
    · rw [portStr, if_neg he, h]
  · intro k he h
    have hk : k < 0 := getPortRange_err_neg h
    rw [portStr, if_neg he, h]
    show (if k < 0 then PyStrResult.pyNone else PyStrResult.typeError) =
      PyStrResult.pyNone
    rw [if_pos hk]

/-- Witness for C2: with a database resolving "1-2" and "2-3", the input
"1-2-3" is ambiguous and `portStr` hits the `TypeError` branch. -/
theorem claimC2_witness :
    getPortRange svcC2 (.str "1-2-3") = .amb ∧
    portStr svcC2 (.str "1-2-3") ":" = .typeError :=
  ⟨by decide, (claimC2 svcC2 (.str "1-2-3") ":").1 (by decide)⟩

/-- C1 counterexample: under a service database on which the whole string
"1-2" resolves (to 99) while the split at the hyphen also gives the valid
numeric pair (1, 2), the claim demands the ambiguous rejection `None`, but
`getPortRange` stops at the full match and returns the single-service
interpretation `(99,)`, which is not the ambiguous result. -/
theorem claimC1_cex :
    getPortID svcC1 (.str "1") = 1 ∧ getPortID svcC1 (.str "2") = 2 ∧
    getPortID svcC1 (.str "1-2") = 99 ∧
    getPortRange svcC1 (.str "1-2") = .one 99 ∧
    getPortRange svcC1 (.str "1-2") ≠ .amb := by
  decide

/-- C1 (amended): whenever the whole port-range string resolves via
`getPortID` (the full-match case, e.g. a service name containing a hyphen),
`getPortRange` stops at the full match and returns that single-id result,
even when a hyphen-split numeric interpretation also succeeds; the ambiguous
result can only arise among partial splits when the whole string does not
resolve. -/
theorem claimC1 (svc : Svc) (s : String)
    (h : 0 ≤ getPortID svc (.str s)) :
    getPortRange svc (.str s) = .one (getPortID svc (.str s)) := by
  simp only [getPortRange]
  obtain ⟨sp0, spt, hsp⟩ : ∃ x t, splitChar '-' s.data = x :: t := by
    cases hq : splitChar '-' s.data with
    | nil => exact absurd hq (splitChar_ne_nil _ _)
    | cons a t => exact ⟨a, t, rfl⟩
  have hjoin : joinChar '-'
      ((splitChar '-' s.data).take (splitChar '-' s.data).length) = s.data := by
    rw [List.take_length, joinChar_splitChar]
  have hdrop : joinChar '-'
      ((splitChar '-' s.data).drop (splitChar '-' s.data).length) = [] := by
    rw [List.drop_length]; rfl
  rcases hn : (splitChar '-' s.data).length with _ | m
  · rw [hsp] at hn
    simp at hn
  · rw [hn] at hjoin hdrop
    simp only [loopMatches]
    rw [hdrop]
    rw [if_neg (by simp)]
    rw [hjoin]
    rw [show (⟨s.data⟩ : String) = s from rfl]
    rw [if_pos h]
    simp only [if_true]
    rfl

/-- Witness for the amended C1 at the counterexample database: "1-2" resolves
as a whole, so the full match wins over the numeric split. -/
theorem claimC1_witness :
    0 ≤ getPortID svcC1 (.str "1-2") ∧
    getPortRange svcC1 (.str "1-2") = .one (getPortID svcC1 (.str "1-2")) :=
  ⟨by decide, claimC1 svcC1 "1-2" (by decide)⟩

theorem contains_iff_mem {l : List Char} {c : Char} :
    l.contains c = true ↔ c ∈ l := by
  simp [List.contains, List.elem_iff]

theorem joinChar_one (sep : Char) (A : List Char) : joinChar sep [A] = A := by
  rw [joinChar, intercalate_single]

theorem joinChar_pair (sep : Char) (A B : List Char) :
    joinChar sep [A, B] = A ++ sep :: B := by
  rw [joinChar, intercalate_cons_two, intercalate_single]
  simp

theorem splitChar_digits_pair (a b : Nat) :
    splitChar '-' (natToDigits a ++ '-' :: natToDigits b) =
      [natToDigits a, natToDigits b] := by
  have hna : '-' ∉ natToDigits a := by
    intro hm
    exact absurd (natToDigits_digits a '-' hm) (by decide)
  have hnb : '-' ∉ natToDigits b := by
    intro hm
    exact absurd (natToDigits_digits b '-' hm) (by decide)
  rw [splitChar_append hna, splitChar_no_sep hnb]

theorem getPortID_digits_dash_none {svc : Svc} {a b : Nat}
    (hsvc : svc ⟨natToDigits a ++ '-' :: natToDigits b⟩ = none) :
    getPortID svc (.str ⟨natToDigits a ++ '-' :: natToDigits b⟩) = -1 := by
  rw [getPortID_str_eq, string_data_mk]
  rw [pyStrip_digits_dash (natToDigits_digits a) (natToDigits_digits b)]
  rw [pyIntCore_digits_dash (natToDigits_ne_nil a) (natToDigits_digits a)]
  rw [hsvc]

theorem getPortRange_digits_pair (svc : Svc) (a b : Nat) (ha : a ≤ 65535)
    (hb : b ≤ 65535)
    (hsvc : svc ⟨natToDigits a ++ '-' :: natToDigits b⟩ = none) :
    getPortRange svc (.str ⟨natToDigits a ++ '-' :: natToDigits b⟩) =
      (if (a : Int) < (b : Int) then .two a b
       else if (b : Int) < (a : Int) then .two b a else .one a) := by
  have hA := getPortID_natToDigits svc ha
  have hB := getPortID_natToDigits svc hb
  have hfull := getPortID_digits_dash_none hsvc
  simp only [getPortRange, string_data_mk, splitChar_digits_pair]
  simp only [List.length_cons, List.length_nil]
  simp only [loopMatches]
  rw [show List.drop (1+1) [natToDigits a, natToDigits b] = [] from rfl]
  rw [show List.take (1+1) [natToDigits a, natToDigits b] =
    [natToDigits a, natToDigits b] from rfl]
  rw [show List.drop (0+1) [natToDigits a, natToDigits b] =
    [natToDigits b] from rfl]
  rw [show List.take (0+1) [natToDigits a, natToDigits b] =
    [natToDigits a] from rfl]
  rw [joinChar_pair, joinChar_one, joinChar_one]
  rw [show joinChar '-' ([] : List (List Char)) = [] from rfl]
  rw [hA, hB, hfull]
  rw [if_neg (show ¬ 0 < ([] : List Char).length by decide)]
  rw [if_neg (show ¬ (0:Int) ≤ -1 by decide)]
  rw [if_pos (List.length_pos.mpr (natToDigits_ne_nil b))]
  rw [if_pos (show (0:Int) ≤ (a:Int) ∧ (0:Int) ≤ (b:Int) by omega)]
  by_cases h1 : (a : Int) < (b : Int)
  · rw [if_pos h1, if_pos h1]
    rfl
  · rw [if_neg h1, if_neg h1]
    by_cases h2 : (b : Int) < (a : Int)
    · rw [if_pos h2, if_pos h2]
      rfl
    · rw [if_neg h2, if_neg h2]
      rfl

/-- C3: for every string "a-b" made of two decimal numerals with
a, b ≤ 65535 whose whole text the service database does not resolve,
`getPortRange` returns the pair (a, b) when a < b, the single-element result
(a,) when a = b, and the canonicalized pair (b, a) when a > b. -/
theorem claimC3 (svc : Svc) (a b : Nat) (ha : a ≤ 65535) (hb : b ≤ 65535)
    (hsvc : svc ⟨natToDigits a ++ '-' :: natToDigits b⟩ = none) :
    (a < b → getPortRange svc (.str ⟨natToDigits a ++ '-' :: natToDigits b⟩) =
      .two a b) ∧
    (a = b → getPortRange svc (.str ⟨natToDigits a ++ '-' :: natToDigits b⟩) =
      .one a) ∧
    (b < a → getPortRange svc (.str ⟨natToDigits a ++ '-' :: natToDigits b⟩) =
      .two b a) := by
  have hmain := getPortRange_digits_pair svc a b ha hb hsvc
  refine ⟨?_, ?_, ?_⟩
  · intro hab
    rw [hmain, if_pos (by omega)]
  · intro hab
    rw [hmain, if_neg (by omega), if_neg (by omega)]
  · intro hab
    rw [hmain, if_neg (by omega), if_pos (by omega)]

/-- Witness for C3 at a = 2, b = 5 over the empty service database. -/
theorem claimC3_witness :
    getPortRange svcNone (.str ⟨natToDigits 2 ++ '-' :: natToDigits 5⟩) =
      .two 2 5 :=
  (claimC3 svcNone 2 5 (by decide) (by decide) rfl).1 (by decide)

theorem firstSlashSplit_no_slash {addr : String} (h : '/' ∉ addr.data) :
    firstSlashSplit addr = (addr, none) := by
  unfold firstSlashSplit
  rw [splitChar_no_sep h]

theorem firstSlashSplit_append {addr mask : String} (h : '/' ∉ addr.data) :
    firstSlashSplit (addr ++ "/" ++ mask) = (addr, some mask) := by
  unfold firstSlashSplit
  have hdata : (addr ++ "/" ++ mask).data = addr.data ++ '/' :: mask.data := by
    rw [string_data_append, string_data_append,
      show ("/" : String).data = ['/'] from rfl]
    simp
  rw [hdata, splitChar_append h]
  obtain ⟨m1, mt, he⟩ : ∃ x t, splitChar '/' mask.data = x :: t := by
    cases hq : splitChar '/' mask.data with
    | nil => exact absurd hq (splitChar_ne_nil _ _)
    | cons x t => exact ⟨x, t, rfl⟩
  rw [he]
  show (⟨addr.data⟩, some ⟨joinChar '/' (m1 :: mt)⟩) = (addr, some mask)
  rw [← he, joinChar_splitChar]

theorem natToDigits_mk_ne_empty (i : Nat) : (⟨natToDigits i⟩ : String) ≠ "" := by
  intro h
  exact natToDigits_ne_nil i (congrArg String.data h)

theorem natToDigits_not_contains_dot (i : Nat) :
    (natToDigits i).contains '.' = false := by
  cases hq : (natToDigits i).contains '.' with
  | false => rfl
  | true =>
    exfalso
    have hmem : '.' ∈ natToDigits i := contains_iff_mem.mp hq
    exact absurd (natToDigits_digits i '.' hmem) (by decide)

theorem pyInt_natToDigits (i : Nat) :
    pyInt ⟨natToDigits i⟩ = some (i : Int) := by
  unfold pyInt
  rw [string_data_mk]
  exact pyIntCore_strip_natToDigits i

/-- C6: `checkIPnMask` accepts a valid IPv4 address alone or followed by `/`
and an integer prefix length 0-32, and rejects any string whose mask part
contains a dot (dotted-decimal subnet mask) even when the address part is
valid; `checkIP6nMask` accepts a valid IPv6 address alone or followed by `/`
and an integer prefix length 0-128, and rejects prefix lengths above 128
(e.g. "::1/129"). -/
theorem claimC6 :
    (∀ chk : String → Bool, ∀ addr : String, chk addr = true →
      '/' ∉ addr.data → checkIPnMask chk addr = true) ∧
    (∀ chk : String → Bool, ∀ addr : String, ∀ i : Nat, chk addr = true →
      '/' ∉ addr.data → i ≤ 32 →
      checkIPnMask chk (addr ++ "/" ++ ⟨natToDigits i⟩) = true) ∧
    (∀ chk : String → Bool, ∀ addr mask : String, '/' ∉ addr.data →
      '.' ∈ mask.data → checkIPnMask chk (addr ++ "/" ++ mask) = false) ∧
    (∀ chk6 : String → Bool, ∀ addr : String, chk6 addr = true →
      '/' ∉ addr.data → checkIP6nMask chk6 addr = true) ∧
    (∀ chk6 : String → Bool, ∀ addr : String, ∀ i : Nat, chk6 addr = true →
      '/' ∉ addr.data → i ≤ 128 →
      checkIP6nMask chk6 (addr ++ "/" ++ ⟨natToDigits i⟩) = true) ∧
    (∀ chk6 : String → Bool, ∀ addr : String, ∀ i : Nat, '/' ∉ addr.data →
      128 < i → checkIP6nMask chk6 (addr ++ "/" ++ ⟨natToDigits i⟩) = false) := by
  refine ⟨?_, ?_, ?_, ?_, ?_, ?_⟩
  · intro chk addr hchk hs
    simp only [checkIPnMask, firstSlashSplit_no_slash hs]
    rw [if_pos hchk]
  · intro chk addr i hchk hs hi
    simp only [checkIPnMask, firstSlashSplit_append hs]
    rw [if_pos hchk]
    rw [if_neg (natToDigits_mk_ne_empty i)]
    have hdot :
        ¬ (((⟨natToDigits i⟩ : String).data.contains '.' && chk addr) = true) := by
      rw [string_data_mk, natToDigits_not_contains_dot]
      simp
    rw [if_neg hdot]
    rw [pyInt_natToDigits]
    show (if (i : Int) < 0 ∨ 32 < (i : Int) then false else true) = true
    rw [if_neg (by omega)]
  · intro chk addr mask hs hdot
    simp only [checkIPnMask, firstSlashSplit_append hs]
    cases hchk : chk addr with
    | false => rw [if_neg (by simp [hchk])]
    | true =>
      rw [if_pos rfl]
      have hne : mask ≠ "" := by
        intro h
        subst h
        exact absurd hdot (by decide)
      rw [if_neg hne]
      rw [if_pos (show (mask.data.contains '.' && true) = true by
        rw [contains_iff_mem.mpr hdot]
        rfl)]
  · intro chk6 addr hchk hs
    simp only [checkIP6nMask, firstSlashSplit_no_slash hs]
    rw [if_pos hchk]
  · intro chk6 addr i hchk hs hi
    simp only [checkIP6nMask, firstSlashSplit_append hs]
    rw [if_pos hchk]
    rw [if_neg (natToDigits_mk_ne_empty i)]
    rw [pyInt_natToDigits]
    show (if (i : Int) < 0 ∨ 128 < (i : Int) then false else true) = true
    rw [if_neg (by omega)]
  · intro chk6 addr i hs hi
    simp only [checkIP6nMask, firstSlashSplit_append hs]
    cases hchk : chk6 addr with
    | false => rw [if_neg (by simp [hchk])]
    | true =>
      rw [if_pos rfl]
      rw [if_neg (natToDigits_mk_ne_empty i)]
      rw [pyInt_natToDigits]
      show (if (i : Int) < 0 ∨ 128 < (i : Int) then false else true) = false
      rw [if_pos (by omega)]

/-- Witness for C6 at the spec's concrete examples. -/
theorem claimC6_witness :
    checkIPnMask ip4ex "192.168.1.0" = true ∧
    checkIPnMask ip4ex ("192.168.1.0" ++ "/" ++ ⟨natToDigits 24⟩) = true ∧
    checkIPnMask ip4ex ("192.168.1.0" ++ "/" ++ "255.255.255.0") = false ∧
    checkIP6nMask ip6ex "::1" = true ∧
    checkIP6nMask ip6ex ("::1" ++ "/" ++ ⟨natToDigits 128⟩) = true ∧
    checkIP6nMask ip6ex ("::1" ++ "/" ++ ⟨natToDigits 129⟩) = false :=
  ⟨claimC6.1 ip4ex "192.168.1.0" (by decide) (by decide),
   claimC6.2.1 ip4ex "192.168.1.0" 24 (by decide) (by decide) (by decide),
   claimC6.2.2.1 ip4ex "192.168.1.0" "255.255.255.0" (by decide) (by decide),
   claimC6.2.2.2.1 ip6ex "::1" (by decide) (by decide),
   claimC6.2.2.2.2.1 ip6ex "::1" 128 (by decide) (by decide) (by decide),
   claimC6.2.2.2.2.2 ip6ex "::1" 129 (by decide) (by decide)⟩

/-- C7: `checkInterface` returns true exactly when the interface name is
nonempty, at most 16 characters long, and contains none of space, `/`, `!`,
`*`; in particular "eth0" is accepted, "eth0!" is rejected, and every
17-character name is rejected. -/
theorem claimC7 :
    (∀ iface : String, checkInterface iface = true ↔
      (iface ≠ "" ∧ iface.length ≤ 16 ∧
        ∀ c ∈ iface.data, c ≠ ' ' ∧ c ≠ '/' ∧ c ≠ '!' ∧ c ≠ '*')) ∧
    checkInterface "eth0" = true ∧ checkInterface "eth0!" = false ∧
    (∀ iface : String, iface.length = 17 → checkInterface iface = false) := by
  refine ⟨?_, by decide, by decide, ?_⟩
  · intro iface
    unfold checkInterface
    constructor
    · intro h
      by_cases h1 : iface = "" ∨ 16 < iface.length
      · rw [if_pos h1] at h
        exact absurd h (by simp)
      · rw [if_neg h1] at h
        push_neg at h1
        by_cases h2 :
            [' ', '/', '!', '*'].any (fun ch => iface.data.contains ch) = true
        · rw [if_pos h2] at h
          exact absurd h (by simp)
        · refine ⟨h1.1, by omega, ?_⟩
          intro c hc
          simp only [List.any_eq_true] at h2
          push_neg at h2
          refine ⟨?_, ?_, ?_, ?_⟩ <;> rintro rfl <;>
            exact (h2 _ (by simp)) (contains_iff_mem.mpr hc)
    · rintro ⟨hne, hlen, hch⟩
      have h2 :
          ¬ ([' ', '/', '!', '*'].any (fun ch => iface.data.contains ch) = true) := by
        simp only [List.any_eq_true]
        push_neg
        intro x hx
        intro hcon
        have hmem := contains_iff_mem.mp hcon
        have hx4 := hch x hmem
        fin_cases hx <;> simp_all
      rw [if_neg (show ¬ (iface = "" ∨ 16 < iface.length) by
        push_neg
        exact ⟨hne, by omega⟩)]
      rw [if_neg h2]
  · intro iface h17
    unfold checkInterface
    rw [if_pos (Or.inr (by omega))]

/-- Witness for C7: a concrete 17-character interface name is rejected. -/
theorem claimC7_witness : checkInterface "abcdefghijklmnopq" = false :=
  claimC7.2.2.2 "abcdefghijklmnopq" (by decide)
